import Mathlib

/-!
Shallow embedding of the server-authoritative build-timer core:
the transactional start path (`startBuild`), the completion engine
(`completeBuild`), the due-record query (`getBuildsToComplete`), the
scheduler batch (`processCompletedBuilds`) and the startup recovery sweep
(`recoverCompletedBuilds`), together with the request-validation layer for
`StartBuildDto`.

Persistence is modelled as in-memory lists of rows; every repository save
consumes one flag from an explicit fault oracle (`List Bool`, head `true`
means the store throws on that save), so store-error behaviour is
expressible.  Times are integers (milliseconds since epoch).
-/

namespace BT

/-- Build lifecycle states, from `BuildStatus` in `build.entity.ts`. -/
inductive BuildStatus where
  | pending
  | running
  | completed
  | failed
deriving DecidableEq, Repr

/-- A row of the `user_resources` table (`user-resources.entity.ts`):
per-user balances of the four named resources. -/
structure UserResources where
  userId : String
  wood : Int
  clay : Int
  iron : Int
  crop : Int
deriving DecidableEq, Repr

/-- A row of the `builds` table (`build.entity.ts`).  The ORM-managed
`createdAt`/`updatedAt` audit columns are omitted. -/
structure Build where
  id : String
  userId : String
  buildType : String
  startTime : Int
  executeAt : Int
  endTime : Option Int
  duration : Option Int
  status : BuildStatus
  isValid : Bool
  errorMessage : Option String
  woodCost : Int
  clayCost : Int
  ironCost : Int
  cropCost : Int
deriving DecidableEq, Repr

/-- The request body of `POST /api/builds/start` (`start-build.dto.ts`).
The four cost fields are optional; `duration` is in milliseconds. -/
structure StartBuildDto where
  userId : String
  buildType : String
  duration : Int
  woodCost : Option Int
  clayCost : Option Int
  ironCost : Option Int
  cropCost : Option Int
deriving DecidableEq, Repr

/-- The persistent store: the two tables. -/
structure St where
  users : List UserResources
  builds : List Build
deriving DecidableEq, Repr

/-- Fault oracle step: the head flag of the schedule decides whether the
next repository save throws; an exhausted schedule means no fault. -/
def popFault : List Bool → Bool × List Bool
  | [] => (false, [])
  | f :: fs => (f, fs)

/-- Lookup of a user's balance row, `manager.findOne(UserResources, ...)`. -/
def findUser (st : St) (userId : String) : Option UserResources :=
  st.users.find? (fun u => u.userId == userId)

/-- Lookup of a build row by primary key, `buildRepository.findOne(...)`. -/
def findBuild (st : St) (id : String) : Option Build :=
  st.builds.find? (fun b => b.id == id)

/-- Row update by primary key, as `repository.save` on a loaded entity. -/
def saveUserRow (u : UserResources) (users : List UserResources) : List UserResources :=
  users.map (fun v => if v.userId == u.userId then u else v)

/-- Row update by primary key, as `repository.save` on a loaded entity. -/
def saveBuildRow (b : Build) (builds : List Build) : List Build :=
  builds.map (fun c => if c.id == b.id then b else c)

/-- Failure outcomes of `startBuild`: `NotFoundException`,
`BadRequestException('Insufficient resources')`, or a store error thrown
by a save inside the transaction. -/
inductive StartErr where
  | notFound (userId : String)
  | insufficientResources
  | storeError
deriving DecidableEq, Repr

/-- Failure outcomes of `completeBuild`: `NotFoundException`,
`BadRequestException('... is not running')`, or a store error from the
final save. -/
inductive CompleteErr where
  | notFound (id : String)
  | notRunning (id : String)
  | storeError
deriving DecidableEq, Repr

/-- The insufficient-resources test of `startBuild`: some named cost
exceeds the corresponding balance (an omitted cost counts as 0, as
`dto.woodCost || 0` does). -/
def insufficient (u : UserResources) (dto : StartBuildDto) : Prop :=
  u.wood < dto.woodCost.getD 0 ∨ u.clay < dto.clayCost.getD 0 ∨
    u.iron < dto.ironCost.getD 0 ∨ u.crop < dto.cropCost.getD 0

instance (u : UserResources) (dto : StartBuildDto) : Decidable (insufficient u dto) := by
  unfold insufficient; infer_instance

/-- The in-place deduction `userResources.wood -= dto.woodCost || 0` and
its three siblings. -/
def deductCosts (u : UserResources) (dto : StartBuildDto) : UserResources :=
  { u with
    wood := u.wood - dto.woodCost.getD 0
    clay := u.clay - dto.clayCost.getD 0
    iron := u.iron - dto.ironCost.getD 0
    crop := u.crop - dto.cropCost.getD 0 }

/-- The row built by `queryRunner.manager.create(Build, ...)` inside
`startBuild`: born Running and valid, costs snapshotted, and
`executeAt = startTime + dto.duration` computed by the server. -/
def newBuildRow (dto : StartBuildDto) (now : Int) (newId : String) : Build :=
  { id := newId
    userId := dto.userId
    buildType := dto.buildType
    startTime := now
    executeAt := now + dto.duration
    endTime := none
    duration := none
    status := .running
    isValid := true
    errorMessage := none
    woodCost := dto.woodCost.getD 0
    clayCost := dto.clayCost.getD 0
    ironCost := dto.ironCost.getD 0
    cropCost := dto.cropCost.getD 0 }

/-- The service method `BuildTimerService.startBuild`: inside one transaction, load and lock
the user's balances, reject when any cost exceeds the balance, deduct all
four costs, and insert the new build with server-computed
`executeAt = startTime + dto.duration`.  Any thrown error rolls the whole
transaction back, so on every failure the returned store equals the input
store.  `now` is the server clock at the call; `newId` is the generated
primary key of the new row. -/
def startBuild (dto : StartBuildDto) (now : Int) (newId : String) (st : St)
    (fs : List Bool) : Except StartErr Build × St × List Bool :=
  match findUser st dto.userId with
  | none => (.error (.notFound dto.userId), st, fs)
  | some u =>
    if insufficient u dto then
      (.error .insufficientResources, st, fs)
    else
      if (popFault fs).1 then (.error .storeError, st, (popFault fs).2)
      else
        if (popFault (popFault fs).2).1 then
          (.error .storeError, st, (popFault (popFault fs).2).2)
        else
          (.ok (newBuildRow dto now newId),
           { users := saveUserRow (deductCosts u dto) st.users,
             builds := st.builds ++ [newBuildRow dto now newId] },
           (popFault (popFault fs).2).2)

/-- The method `BuildTimerService.validateDuration`: the completion-time sanity
check; the source returns `duration > 0`. -/
def validateDuration (d : Int) : Bool :=
  d > 0

/-- The field updates `completeBuild` performs on a loaded Running row
before saving it: `endTime = now`, `duration = now - startTime` (actual
elapsed wall-clock time), the supplied terminal `status`, and the
recomputed `isValid`; every other field, `errorMessage` included, is left
as loaded. -/
def completedRow (b : Build) (status : BuildStatus) (now : Int) : Build :=
  { b with
    endTime := some now
    duration := some (now - b.startTime)
    status := status
    isValid := validateDuration (now - b.startTime) }

/-- The method `BuildTimerService.completeBuild(buildId, status)`: load the record,
reject when missing or not Running, then save the `completedRow` update.
A failed save leaves the store unchanged. -/
def completeBuild (id : String) (status : BuildStatus) (now : Int) (st : St)
    (fs : List Bool) : Except CompleteErr Build × St × List Bool :=
  match findBuild st id with
  | none => (.error (.notFound id), st, fs)
  | some b =>
    if b.status ≠ BuildStatus.running then (.error (.notRunning id), st, fs)
    else
      if (popFault fs).1 then (.error .storeError, st, (popFault fs).2)
      else
        (.ok (completedRow b status now),
         { st with builds := saveBuildRow (completedRow b status now) st.builds },
         (popFault fs).2)

/-- Ordering used by the due query: ascending `executeAt`. -/
def execLE (a b : Build) : Prop :=
  a.executeAt ≤ b.executeAt

instance : DecidableRel execLE := fun a b => Int.decLe a.executeAt b.executeAt

instance : IsTotal Build execLE := ⟨fun a b => Int.le_total a.executeAt b.executeAt⟩

instance : IsTrans Build execLE := ⟨fun _ _ _ h h' => le_trans h h'⟩

/-- The due query `BuildTimerService.getBuildsToComplete`: the rows with
`status = RUNNING` and `executeAt <= now`, ordered by `executeAt`
ascending. -/
def getBuildsToComplete (now : Int) (st : St) : List Build :=
  List.insertionSort execLE
    (st.builds.filter (fun b => b.status == BuildStatus.running && b.executeAt ≤ now))

/-- The per-record loop of `SchedulerService.processCompletedBuilds`: try
to complete each due record as Completed; on a thrown error, retry it as
Failed.  An error thrown by that fallback call escapes the loop to the
tick-level catch, which swallows it and ends the tick, leaving the rest
of the batch unprocessed. -/
def processBatch (batch : List Build) (now : Int) (st : St) (fs : List Bool) :
    St × List Bool :=
  match batch with
  | [] => (st, fs)
  | b :: rest =>
    match completeBuild b.id .completed now st fs with
    | (.ok _, st', fs') => processBatch rest now st' fs'
    | (.error _, st', fs') =>
      match completeBuild b.id .failed now st' fs' with
      | (.ok _, st'', fs'') => processBatch rest now st'' fs''
      | (.error _, st'', fs'') => (st'', fs'')

/-- One scheduler tick: query the due records once, then run the batch
loop. -/
def processCompletedBuilds (now : Int) (st : St) (fs : List Bool) :
    St × List Bool :=
  processBatch (getBuildsToComplete now st) now st fs

/-- The `error.message` text of the exceptions `completeBuild` can throw, as
captured by the recovery sweep. -/
def completeErrMessage : CompleteErr → String
  | .notFound id => "Build " ++ id ++ " not found"
  | .notRunning id => "Build " ++ id ++ " is not running"
  | .storeError => "store error"

/-- The row written back by the catch block of `recoverCompletedBuilds`:
the stale loop snapshot with `status = FAILED` and the captured
`error.message`. -/
def failedRow (b : Build) (e : CompleteErr) : Build :=
  { b with status := .failed, errorMessage := some (completeErrMessage e) }

/-- The per-record loop of `BuildTimerService.recoverCompletedBuilds`:
complete each due record as Completed, counting successes; on a thrown
error, write the stale row back with `status = FAILED` and the captured
message.  That write is not guarded, so if it throws too the whole sweep
aborts with the error and no count is returned. -/
def recoverLoop (batch : List Build) (now : Int) (st : St) (fs : List Bool)
    (recovered : Nat) : Except CompleteErr Nat × St × List Bool :=
  match batch with
  | [] => (.ok recovered, st, fs)
  | b :: rest =>
    match completeBuild b.id .completed now st fs with
    | (.ok _, st', fs') => recoverLoop rest now st' fs' (recovered + 1)
    | (.error e, st', fs') =>
      if (popFault fs').1 then (.error .storeError, st', (popFault fs').2)
      else
        recoverLoop rest now
          { st' with builds := saveBuildRow (failedRow b e) st'.builds }
          (popFault fs').2 recovered

/-- The sweep `BuildTimerService.recoverCompletedBuilds`, run once at startup. -/
def recoverCompletedBuilds (now : Int) (st : St) (fs : List Bool) :
    Except CompleteErr Nat × St × List Bool :=
  recoverLoop (getBuildsToComplete now st) now st fs 0

/-- The class-validator constraints declared on `StartBuildDto`:
`duration` carries `@Min(1)` and every optional cost carries `@Min(0)`. -/
def dtoValid (dto : StartBuildDto) : Prop :=
  1 ≤ dto.duration ∧
  (∀ c ∈ dto.woodCost, 0 ≤ c) ∧ (∀ c ∈ dto.clayCost, 0 ≤ c) ∧
  (∀ c ∈ dto.ironCost, 0 ≤ c) ∧ (∀ c ∈ dto.cropCost, 0 ≤ c)

instance (dto : StartBuildDto) : Decidable (dtoValid dto) := by
  unfold dtoValid; infer_instance

/-- Outcome of the start endpoint: either a service result or a
validation rejection. -/
inductive EndpointErr where
  | validationError
  | serviceError (e : StartErr)
deriving DecidableEq, Repr

/-- Modelled from the spec: the request-validation layer (the NestJS
ValidationPipe bootstrap, whose `main.ts` is not among the sources)
rejects a `StartBuildDto` violating its class-validator decorators before
`BuildTimerService.startBuild` runs, so a malformed request causes no
lock acquisition and no store access. -/
def startBuildEndpoint (dto : StartBuildDto) (now : Int) (newId : String)
    (st : St) (fs : List Bool) : Except EndpointErr Build × St × List Bool :=
  if dtoValid dto then
    match startBuild dto now newId st fs with
    | (.ok b, st', fs') => (.ok b, st', fs')
    | (.error e, st', fs') => (.error (.serviceError e), st', fs')
  else
    (.error .validationError, st, fs)

/-- Non-negativity of every resource field of every user's balance row:
the ledger invariant. -/
def balancesNonNeg (st : St) : Prop :=
  ∀ u ∈ st.users, 0 ≤ u.wood ∧ 0 ≤ u.clay ∧ 0 ≤ u.iron ∧ 0 ≤ u.crop

instance (st : St) : Decidable (balancesNonNeg st) := by
  unfold balancesNonNeg; infer_instance

/-- All (effective) cost components of a request are non-negative. -/
def costsNonNeg (dto : StartBuildDto) : Prop :=
  0 ≤ dto.woodCost.getD 0 ∧ 0 ≤ dto.clayCost.getD 0 ∧
    0 ≤ dto.ironCost.getD 0 ∧ 0 ≤ dto.cropCost.getD 0

instance (dto : StartBuildDto) : Decidable (costsNonNeg dto) := by
  unfold costsNonNeg; infer_instance

/-- A sequence of `startBuild` calls (each with its request, clock value
and generated id), threading the store and the fault oracle; every call's
resulting store is kept whether the call succeeded or failed. -/
def runStartSeq : List (StartBuildDto × Int × String) → St → List Bool → St × List Bool
  | [], st, fs => (st, fs)
  | c :: cs, st, fs =>
    runStartSeq cs (startBuild c.1 c.2.1 c.2.2 st fs).2.1
      (startBuild c.1 c.2.1 c.2.2 st fs).2.2

/-! ### Concrete fixtures used by witnesses and counterexamples -/

def wUser : UserResources :=
  { userId := "u1", wood := 200, clay := 100, iron := 50, crop := 30 }

def wSt : St := { users := [wUser], builds := [] }

def wDto : StartBuildDto :=
  { userId := "u1", buildType := "barracks", duration := 60000,
    woodCost := some 100, clayCost := some 50, ironCost := none, cropCost := none }

/-- A request whose wood cost exceeds `wUser`'s balance. -/
def dtoPoor : StartBuildDto :=
  { userId := "u1", buildType := "wall", duration := 500,
    woodCost := some 1000, clayCost := none, ironCost := none, cropCost := none }

/-- A malformed request: `duration = 0`. -/
def dtoZero : StartBuildDto := { wDto with duration := 0 }

def cexB1 : Build :=
  { id := "b1", userId := "u1", buildType := "barracks", startTime := 40,
    executeAt := 50, endTime := none, duration := none, status := .running,
    isValid := true, errorMessage := none, woodCost := 0, clayCost := 0,
    ironCost := 0, cropCost := 0 }

def cexB2 : Build := { cexB1 with id := "b2", executeAt := 60 }

/-- Two Running, overdue rows. -/
def cexSt : St := { users := [], builds := [cexB1, cexB2] }

def cexB1failed : Build :=
  { cexB1 with endTime := some 100, duration := some 60, status := .failed }

def cexB1completed : Build :=
  { cexB1 with endTime := some 100, duration := some 60, status := .completed }

def cexB2completed : Build :=
  { cexB2 with endTime := some 100, duration := some 60, status := .completed }

/-- The store after `completeBuild "b1" completed 100 cexSt []`. -/
def cexStDone : St := { users := [], builds := [cexB1completed, cexB2] }

/-! ### Store lemmas: row updates and lookups -/

theorem find?_saveBuildRow_self {l : List Build} {b' b : Build}
    (h : l.find? (fun c => c.id == b'.id) = some b) :
    (saveBuildRow b' l).find? (fun c => c.id == b'.id) = some b' := by
  induction l with
  | nil => simp [List.find?] at h
  | cons c cs ih =>
    rw [List.find?_cons] at h
    rw [saveBuildRow, List.map_cons, List.find?_cons]
    cases hc : (c.id == b'.id) with
    | true => simp [hc]
    | false =>
      rw [hc] at h
      simp only [Bool.false_eq_true, if_false, hc]
      exact ih h

theorem find?_saveBuildRow_other {l : List Build} {b' : Build} {j : String}
    (hne : j ≠ b'.id) :
    (saveBuildRow b' l).find? (fun c => c.id == j) = l.find? (fun c => c.id == j) := by
  induction l with
  | nil => rfl
  | cons c cs ih =>
    rw [saveBuildRow, List.map_cons, List.find?_cons, List.find?_cons]
    cases hc : (c.id == b'.id) with
    | true =>
      have hcid : c.id = b'.id := eq_of_beq hc
      have hbj : (b'.id == j) = false := by
        simp only [beq_eq_false_iff_ne, ne_eq]
        exact fun hh => hne hh.symm
      have hcj : (c.id == j) = false := by rw [hcid]; exact hbj
      simp only [if_true, hbj, hcj]
      exact ih
    | false =>
      simp only [Bool.false_eq_true, if_false]
      cases hcj : (c.id == j) with
      | true => simp [hcj]
      | false => simp only [hcj]; exact ih

theorem findBuild_save_self {st : St} {b' b : Build}
    (h : findBuild st b'.id = some b) :
    findBuild { st with builds := saveBuildRow b' st.builds } b'.id = some b' :=
  find?_saveBuildRow_self h

theorem findBuild_save_other {st : St} {b' : Build} {j : String}
    (hne : j ≠ b'.id) :
    findBuild { st with builds := saveBuildRow b' st.builds } j = findBuild st j :=
  find?_saveBuildRow_other hne

theorem findBuild_id {st : St} {id : String} {b : Build}
    (h : findBuild st id = some b) : b.id = id := by
  unfold findBuild at h
  have hp := List.find?_some h
  exact eq_of_beq hp

theorem findUser_id {st : St} {uid : String} {u : UserResources}
    (h : findUser st uid = some u) : u.userId = uid := by
  unfold findUser at h
  have hp := List.find?_some h
  exact eq_of_beq hp

theorem find?_saveUserRow_self {l : List UserResources} {u' u : UserResources}
    (h : l.find? (fun v => v.userId == u'.userId) = some u) :
    (saveUserRow u' l).find? (fun v => v.userId == u'.userId) = some u' := by
  induction l with
  | nil => simp [List.find?] at h
  | cons c cs ih =>
    rw [List.find?_cons] at h
    rw [saveUserRow, List.map_cons, List.find?_cons]
    cases hc : (c.userId == u'.userId) with
    | true => simp [hc]
    | false =>
      rw [hc] at h
      simp only [Bool.false_eq_true, if_false, hc]
      exact ih h

theorem findUser_save_self {st : St} {u' u : UserResources} {bs : List Build}
    (h : findUser st u'.userId = some u) :
    findUser { users := saveUserRow u' st.users, builds := bs } u'.userId = some u' :=
  find?_saveUserRow_self h

/-! ### Characterization of the two mutating operations -/

theorem completeBuild_ok_inv {id : String} {s : BuildStatus} {now : Int}
    {st st' : St} {fs fs' : List Bool} {b' : Build}
    (h : completeBuild id s now st fs = (.ok b', st', fs')) :
    ∃ b, findBuild st id = some b ∧ b.status = .running ∧
      b' = completedRow b s now ∧
      st' = { st with builds := saveBuildRow b' st.builds } ∧
      fs' = (popFault fs).2 := by
  unfold completeBuild at h
  cases hfind : findBuild st id with
  | none => simp only [hfind] at h; simp at h
  | some b =>
    simp only [hfind] at h
    by_cases hs : b.status ≠ BuildStatus.running
    · rw [if_pos hs] at h; simp at h
    · rw [if_neg hs] at h
      push_neg at hs
      by_cases hp : (popFault fs).1 = true
      · rw [if_pos hp] at h; simp at h
      · rw [if_neg hp] at h
        simp only [Prod.mk.injEq, Except.ok.injEq] at h
        obtain ⟨hA, hB, hC⟩ := h
        exact ⟨b, rfl, hs, hA.symm, by rw [← hB, hA], hC.symm⟩

theorem completeBuild_error_state {id : String} {s : BuildStatus} {now : Int}
    {st st' : St} {fs fs' : List Bool} {e : CompleteErr}
    (h : completeBuild id s now st fs = (.error e, st', fs')) : st' = st := by
  unfold completeBuild at h
  cases hfind : findBuild st id with
  | none => simp only [hfind, Prod.mk.injEq] at h; exact h.2.1.symm
  | some b =>
    simp only [hfind] at h
    by_cases hs : b.status ≠ BuildStatus.running
    · rw [if_pos hs] at h
      simp only [Prod.mk.injEq] at h
      exact h.2.1.symm
    · rw [if_neg hs] at h
      by_cases hp : (popFault fs).1 = true
      · rw [if_pos hp] at h
        simp only [Prod.mk.injEq] at h
        exact h.2.1.symm
      · rw [if_neg hp] at h
        simp at h

theorem completeBuild_not_running {id : String} {s : BuildStatus} {now : Int}
    {st : St} {fs : List Bool} {b : Build}
    (hfind : findBuild st id = some b) (hs : b.status ≠ .running) :
    completeBuild id s now st fs = (.error (.notRunning id), st, fs) := by
  unfold completeBuild
  simp only [hfind]
  rw [if_pos hs]

theorem completeBuild_running_ok {id : String} {s : BuildStatus} {now : Int}
    {st : St} {fs : List Bool} {b : Build}
    (hfind : findBuild st id = some b) (hs : b.status = .running)
    (hp : (popFault fs).1 = false) :
    completeBuild id s now st fs =
      (.ok (completedRow b s now),
       { st with builds := saveBuildRow (completedRow b s now) st.builds },
       (popFault fs).2) := by
  unfold completeBuild
  simp only [hfind]
  rw [if_neg (by simp [hs]), if_neg (by simp [hp])]

theorem startBuild_ok_inv {dto : StartBuildDto} {now : Int} {newId : String}
    {st st' : St} {fs fs' : List Bool} {b : Build}
    (h : startBuild dto now newId st fs = (.ok b, st', fs')) :
    ∃ u, findUser st dto.userId = some u ∧ ¬insufficient u dto ∧
      b = newBuildRow dto now newId ∧
      st' = { users := saveUserRow (deductCosts u dto) st.users,
              builds := st.builds ++ [newBuildRow dto now newId] } := by
  unfold startBuild at h
  cases hfind : findUser st dto.userId with
  | none => simp only [hfind] at h; simp at h
  | some u =>
    simp only [hfind] at h
    by_cases hi : insufficient u dto
    · rw [if_pos hi] at h; simp at h
    · rw [if_neg hi] at h
      by_cases hp1 : (popFault fs).1 = true
      · rw [if_pos hp1] at h; simp at h
      · rw [if_neg hp1] at h
        by_cases hp2 : (popFault (popFault fs).2).1 = true
        · rw [if_pos hp2] at h; simp at h
        · rw [if_neg hp2] at h
          simp only [Prod.mk.injEq, Except.ok.injEq] at h
          exact ⟨u, rfl, hi, h.1.symm, h.2.1.symm⟩

theorem startBuild_error_state {dto : StartBuildDto} {now : Int} {newId : String}
    {st st' : St} {fs fs' : List Bool} {e : StartErr}
    (h : startBuild dto now newId st fs = (.error e, st', fs')) : st' = st := by
  unfold startBuild at h
  cases hfind : findUser st dto.userId with
  | none => simp only [hfind, Prod.mk.injEq] at h; exact h.2.1.symm
  | some u =>
    simp only [hfind] at h
    by_cases hi : insufficient u dto
    · rw [if_pos hi] at h; simp only [Prod.mk.injEq] at h; exact h.2.1.symm
    · rw [if_neg hi] at h
      by_cases hp1 : (popFault fs).1 = true
      · rw [if_pos hp1] at h; simp only [Prod.mk.injEq] at h; exact h.2.1.symm
      · rw [if_neg hp1] at h
        by_cases hp2 : (popFault (popFault fs).2).1 = true
        · rw [if_pos hp2] at h; simp only [Prod.mk.injEq] at h; exact h.2.1.symm
        · rw [if_neg hp2] at h; simp at h

theorem startBuild_insufficient_run {dto : StartBuildDto} {now : Int}
    {newId : String} {st : St} {fs : List Bool} {u : UserResources}
    (hfind : findUser st dto.userId = some u) (hi : insufficient u dto) :
    startBuild dto now newId st fs = (.error .insufficientResources, st, fs) := by
  unfold startBuild
  simp only [hfind]
  rw [if_pos hi]

theorem startBuild_insufficient_only_if {dto : StartBuildDto} {now : Int}
    {newId : String} {st st' : St} {fs fs' : List Bool} {u : UserResources}
    (hfind : findUser st dto.userId = some u)
    (h : startBuild dto now newId st fs = (.error .insufficientResources, st', fs')) :
    insufficient u dto := by
  unfold startBuild at h
  simp only [hfind] at h
  by_cases hi : insufficient u dto
  · exact hi
  · exfalso
    rw [if_neg hi] at h
    by_cases hp1 : (popFault fs).1 = true
    · rw [if_pos hp1] at h; simp at h
    · rw [if_neg hp1] at h
      by_cases hp2 : (popFault (popFault fs).2).1 = true
      · rw [if_pos hp2] at h; simp at h
      · rw [if_neg hp2] at h; simp at h

/-! ### Due-query and batch helpers -/

theorem completedRow_id {b : Build} {s : BuildStatus} {now : Int} :
    (completedRow b s now).id = b.id := rfl

theorem mem_getBuildsToComplete {now : Int} {st : St} {x : Build} :
    x ∈ getBuildsToComplete now st ↔
      x ∈ st.builds ∧ x.status = .running ∧ x.executeAt ≤ now := by
  unfold getBuildsToComplete
  rw [List.mem_insertionSort, List.mem_filter]
  simp [and_assoc]

theorem nodup_due_ids {now : Int} {st : St}
    (hnd : (st.builds.map (fun x => x.id)).Nodup) :
    ((getBuildsToComplete now st).map (fun x => x.id)).Nodup := by
  unfold getBuildsToComplete
  have hperm :=
    List.perm_insertionSort execLE
      (st.builds.filter (fun b => b.status == BuildStatus.running && b.executeAt ≤ now))
  have h1 :
      ((st.builds.filter
          (fun b => b.status == BuildStatus.running && b.executeAt ≤ now)).map
        (fun x => x.id)).Nodup :=
    hnd.sublist ((List.filter_sublist st.builds).map (fun x => x.id))
  exact ((hperm.map (fun x => x.id)).nodup_iff).mpr h1

theorem find?_id_of_mem_nodup {l : List Build} {x : Build}
    (hnd : (l.map (fun c => c.id)).Nodup) (hx : x ∈ l) :
    l.find? (fun c => c.id == x.id) = some x := by
  induction l with
  | nil => cases hx
  | cons c cs ih =>
    rw [List.map_cons, List.nodup_cons] at hnd
    rw [List.find?_cons]
    cases hx with
    | head => simp
    | tail _ hx' =>
      have hxid : x.id ∈ cs.map (fun c => c.id) := List.mem_map_of_mem _ hx'
      have hcx : (c.id == x.id) = false := by
        simp only [beq_eq_false_iff_ne, ne_eq]
        intro hh
        exact hnd.1 (hh ▸ hxid)
      rw [hcx]
      exact ih hnd.2 hx'

theorem findBuild_of_mem_nodup {st : St} {x : Build}
    (hnd : (st.builds.map (fun c => c.id)).Nodup) (hx : x ∈ st.builds) :
    findBuild st x.id = some x :=
  find?_id_of_mem_nodup hnd hx

theorem completeBuild_store_fault {id : String} {s : BuildStatus} {now : Int}
    {st : St} {fs : List Bool} {b : Build}
    (hfind : findBuild st id = some b) (hs : b.status = .running)
    (hp : (popFault fs).1 = true) :
    completeBuild id s now st fs = (.error .storeError, st, (popFault fs).2) := by
  unfold completeBuild
  simp only [hfind]
  rw [if_neg (by simp [hs]), if_pos hp]

/-- Fault-free scheduler batch: when no save throws, every listed Running
record is driven to Completed and rows outside the batch are untouched. -/
theorem processBatch_no_fault {batch : List Build} {now : Int} {st : St}
    (hmem : ∀ x ∈ batch, ∃ r, findBuild st x.id = some r ∧ r.status = BuildStatus.running)
    (hnd : (batch.map (fun x => x.id)).Nodup) :
    (∀ x ∈ batch, ∀ r, findBuild st x.id = some r →
       findBuild (processBatch batch now st []).1 x.id =
         some (completedRow r .completed now)) ∧
    (∀ j, j ∉ batch.map (fun x => x.id) →
       findBuild (processBatch batch now st []).1 j = findBuild st j) ∧
    (processBatch batch now st []).2 = [] := by
  induction batch generalizing st with
  | nil => simp [processBatch]
  | cons b rest ih =>
    obtain ⟨r, hr, hrun⟩ := hmem b (by simp)
    have hid : r.id = b.id := findBuild_id hr
    have hcb := @completeBuild_running_ok b.id BuildStatus.completed now st [] r hr hrun rfl
    have hstep :
        processBatch (b :: rest) now st [] =
          processBatch rest now
            { st with builds := saveBuildRow (completedRow r .completed now) st.builds }
            [] := by
      rw [processBatch]
      simp only [hcb]
      rfl
    rw [List.map_cons, List.nodup_cons] at hnd
    have hself :
        findBuild
          { st with builds := saveBuildRow (completedRow r .completed now) st.builds }
          b.id = some (completedRow r .completed now) := by
      have hpre : findBuild st (completedRow r .completed now).id = some r := by
        rw [completedRow_id, hid]
        exact hr
      have h2 := findBuild_save_self hpre
      rwa [completedRow_id, hid] at h2
    have hother :
        ∀ j, j ≠ b.id →
          findBuild
            { st with builds := saveBuildRow (completedRow r .completed now) st.builds }
            j = findBuild st j := by
      intro j hj
      exact findBuild_save_other (by rw [completedRow_id, hid]; exact hj)
    have hmem' :
        ∀ x ∈ rest,
          ∃ rx,
            findBuild
              { st with builds := saveBuildRow (completedRow r .completed now) st.builds }
              x.id = some rx ∧ rx.status = BuildStatus.running := by
      intro x hx
      obtain ⟨rx, hrx, hrxrun⟩ := hmem x (by simp [hx])
      have hxne : x.id ≠ b.id := by
        intro hh
        exact hnd.1 (hh ▸ List.mem_map_of_mem _ hx)
      exact ⟨rx, by rw [hother x.id hxne]; exact hrx, hrxrun⟩
    obtain ⟨ih1, ih2, ih3⟩ := ih hmem' hnd.2
    refine ⟨?_, ?_, ?_⟩
    · intro x hx rx hrx
      rw [hstep]
      cases hx with
      | head =>
        have hrxr : rx = r := by
          rw [hr] at hrx
          exact (Option.some.injEq _ _).mp hrx.symm ▸ rfl
        have hbni : b.id ∉ rest.map (fun x => x.id) := hnd.1
        rw [ih2 b.id hbni, hrxr]
        exact hself
      | tail _ hx' =>
        have hxne : x.id ≠ b.id := by
          intro hh
          exact hnd.1 (hh ▸ List.mem_map_of_mem _ hx')
        exact ih1 x hx' rx (by rw [hother x.id hxne]; exact hrx)
    · intro j hj
      rw [List.map_cons, List.mem_cons] at hj
      push_neg at hj
      rw [hstep, ih2 j hj.2, hother j hj.1]
    · rw [hstep]
      exact ih3

/-! ### Claim theorems -/

/-- C6: the due-query `getBuildsToComplete` returns exactly the records
with status Running and `executeAt ≤ now`, ordered by `executeAt`
ascending. -/
theorem getBuildsToComplete_spec (now : Int) (st : St) :
    List.Sorted execLE (getBuildsToComplete now st) ∧
    ∀ b, b ∈ getBuildsToComplete now st ↔
      b ∈ st.builds ∧ b.status = BuildStatus.running ∧ b.executeAt ≤ now := by
  constructor
  · unfold getBuildsToComplete
    exact List.sorted_insertionSort execLE _
  · intro b
    exact mem_getBuildsToComplete

/-- C9: a request with `duration ≤ 0` is rejected by the validation layer
with a ValidationError before the service runs: the store (ledger and
build registry alike) is returned untouched and no lock or store access
happens. -/
theorem startBuildEndpoint_rejects_nonpositive_duration
    {dto : StartBuildDto} (now : Int) (newId : String) (st : St) (fs : List Bool)
    (hd : dto.duration ≤ 0) :
    startBuildEndpoint dto now newId st fs = (.error .validationError, st, fs) := by
  have hnv : ¬ dtoValid dto := by
    intro hv
    have h1 := hv.1
    omega
  unfold startBuildEndpoint
  rw [if_neg hnv]

/-- C9 witness: the rejection at `duration = 0` against the concrete
store `wSt`. -/
theorem startBuildEndpoint_rejects_nonpositive_duration_witness :
    dtoZero.duration ≤ 0 ∧
    startBuildEndpoint dtoZero 5 "b1" wSt [] = (.error .validationError, wSt, []) :=
  ⟨by decide, startBuildEndpoint_rejects_nonpositive_duration 5 "b1" wSt [] (by decide)⟩

/-- C1: `startBuild` is all-or-nothing: on success the ledger deduction
and the appended BuildRecord are committed together; on any failure
(user not found, insufficient resources, or a store error inside the
transaction) the returned store is exactly the input store. -/
theorem startBuild_atomic {dto : StartBuildDto} {now : Int} {newId : String}
    {st st' : St} {fs fs' : List Bool} {r : Except StartErr Build}
    (h : startBuild dto now newId st fs = (r, st', fs')) :
    (∃ b u, r = .ok b ∧ findUser st dto.userId = some u ∧
       st'.builds = st.builds ++ [b] ∧
       st'.users = saveUserRow (deductCosts u dto) st.users ∧
       findUser st' dto.userId = some (deductCosts u dto)) ∨
    ((∃ e, r = .error e) ∧ st' = st) := by
  cases r with
  | ok b =>
    left
    obtain ⟨u, hu, hni, hb, hst⟩ := startBuild_ok_inv h
    have huid : u.userId = dto.userId := findUser_id hu
    have hpre : findUser st (deductCosts u dto).userId = some u := by
      show findUser st u.userId = some u
      rw [huid]
      exact hu
    refine ⟨b, u, rfl, hu, ?_, ?_, ?_⟩
    · rw [hst, hb]
    · rw [hst]
    · have h2 := @findUser_save_self st (deductCosts u dto) u
        (st.builds ++ [newBuildRow dto now newId]) hpre
      have hkey : (deductCosts u dto).userId = dto.userId := huid
      rw [hkey] at h2
      rw [hst]
      exact h2
  | error e =>
    exact Or.inr ⟨⟨e, rfl⟩, startBuild_error_state h⟩

/-- C1 witness: the theorem applied to a concrete successful call. -/
theorem startBuild_atomic_witness :
    (∃ b u, (startBuild wDto 1000 "b1" wSt []).1 = .ok b ∧
       findUser wSt wDto.userId = some u ∧
       (startBuild wDto 1000 "b1" wSt []).2.1.builds = wSt.builds ++ [b] ∧
       (startBuild wDto 1000 "b1" wSt []).2.1.users =
         saveUserRow (deductCosts u wDto) wSt.users ∧
       findUser (startBuild wDto 1000 "b1" wSt []).2.1 wDto.userId =
         some (deductCosts u wDto)) ∨
    ((∃ e, (startBuild wDto 1000 "b1" wSt []).1 = .error e) ∧
       (startBuild wDto 1000 "b1" wSt []).2.1 = wSt) :=
  @startBuild_atomic wDto 1000 "b1" wSt (startBuild wDto 1000 "b1" wSt []).2.1
    [] (startBuild wDto 1000 "b1" wSt []).2.2 (startBuild wDto 1000 "b1" wSt []).1 rfl

/-- C3: for an existing user, `startBuild` reports InsufficientResources
exactly when some named cost exceeds the corresponding balance, and in
that case the store is left untouched (no balance mutated, no record
created). -/
theorem startBuild_insufficient_iff {dto : StartBuildDto} {now : Int}
    {newId : String} {st st' : St} {fs fs' : List Bool}
    {r : Except StartErr Build} {u : UserResources}
    (hu : findUser st dto.userId = some u)
    (h : startBuild dto now newId st fs = (r, st', fs')) :
    (r = .error .insufficientResources ↔
      (u.wood < dto.woodCost.getD 0 ∨ u.clay < dto.clayCost.getD 0 ∨
       u.iron < dto.ironCost.getD 0 ∨ u.crop < dto.cropCost.getD 0)) ∧
    (r = .error .insufficientResources → st' = st) := by
  constructor
  · constructor
    · intro hr
      rw [hr] at h
      exact startBuild_insufficient_only_if hu h
    · intro hins
      have h2 := @startBuild_insufficient_run dto now newId st fs u hu
        (show insufficient u dto from hins)
      have h3 := h.symm.trans h2
      simp only [Prod.mk.injEq] at h3
      exact h3.1
  · intro hr
    rw [hr] at h
    exact startBuild_error_state h

/-- C3 witness: `wUser` has wood 200; a wood cost of 1000 is rejected as
insufficient with the store unchanged. -/
theorem startBuild_insufficient_iff_witness :
    (((startBuild dtoPoor 7 "b9" wSt []).1 = .error .insufficientResources ↔
      (wUser.wood < dtoPoor.woodCost.getD 0 ∨ wUser.clay < dtoPoor.clayCost.getD 0 ∨
       wUser.iron < dtoPoor.ironCost.getD 0 ∨ wUser.crop < dtoPoor.cropCost.getD 0)) ∧
     ((startBuild dtoPoor 7 "b9" wSt []).1 = .error .insufficientResources →
       (startBuild dtoPoor 7 "b9" wSt []).2.1 = wSt)) :=
  @startBuild_insufficient_iff dtoPoor 7 "b9" wSt
    (startBuild dtoPoor 7 "b9" wSt []).2.1 [] (startBuild dtoPoor 7 "b9" wSt []).2.2
    (startBuild dtoPoor 7 "b9" wSt []).1 wUser rfl rfl

/-- Single step of the ledger-nonnegativity argument: one `startBuild`
call, however it ends, keeps every balance field non-negative. -/
theorem startBuild_preserves_nonneg {dto : StartBuildDto} {now : Int}
    {newId : String} {st : St} {fs : List Bool}
    (hb : balancesNonNeg st) (hc : costsNonNeg dto) :
    balancesNonNeg (startBuild dto now newId st fs).2.1 := by
  rcases hres : startBuild dto now newId st fs with ⟨r, st', fs'⟩
  cases r with
  | error e =>
    have hss := startBuild_error_state hres
    show balancesNonNeg st'
    rw [hss]
    exact hb
  | ok b =>
    obtain ⟨u, hu, hni, hbld, hst⟩ := startBuild_ok_inv hres
    show balancesNonNeg st'
    rw [hst]
    intro v hv
    have hv' : v ∈ saveUserRow (deductCosts u dto) st.users := hv
    unfold saveUserRow at hv'
    obtain ⟨w, hw, hveq⟩ := List.mem_map.mp hv'
    by_cases hwid : (w.userId == (deductCosts u dto).userId) = true
    · rw [if_pos hwid] at hveq
      subst hveq
      have humem : u ∈ st.users := by
        have hfu : findUser st dto.userId = some u := hu
        unfold findUser at hfu
        exact List.mem_of_find?_eq_some hfu
      have hun := hb u humem
      unfold insufficient at hni
      push_neg at hni
      obtain ⟨h1, h2, h3, h4⟩ := hni
      refine ⟨?_, ?_, ?_, ?_⟩ <;> simp only [deductCosts] <;> omega
    · rw [if_neg hwid] at hveq
      subst hveq
      exact hb w hw

/-- C10: ledger non-negativity invariant: starting from all-non-negative
balances, any sequence of `startBuild` calls with non-negative cost
components — each succeeding or failing — leaves every resource field of
every user non-negative. -/
theorem ledger_nonneg_invariant {calls : List (StartBuildDto × Int × String)}
    {st : St} {fs : List Bool}
    (hb : balancesNonNeg st) (hc : ∀ c ∈ calls, costsNonNeg c.1) :
    balancesNonNeg (runStartSeq calls st fs).1 := by
  induction calls generalizing st fs with
  | nil => exact hb
  | cons c cs ih =>
    rw [runStartSeq]
    exact ih (startBuild_preserves_nonneg hb (hc c (by simp)))
      (fun d hd => hc d (by simp [hd]))

/-- C10 witness: a concrete two-call sequence (one success, one
insufficiency failure) from the all-non-negative store `wSt`. -/
theorem ledger_nonneg_invariant_witness :
    balancesNonNeg wSt ∧
    (∀ c ∈ [(wDto, (5 : Int), "b1"), (dtoPoor, (9 : Int), "b2")], costsNonNeg c.1) ∧
    balancesNonNeg (runStartSeq [(wDto, 5, "b1"), (dtoPoor, 9, "b2")] wSt []).1 :=
  ⟨by decide, by decide,
    ledger_nonneg_invariant (by decide) (by decide)⟩

/-- C2: every successful `startBuild` deducts the costs componentwise
from the user's balance (omitted costs counting as 0), appends the new
record, and that record is Running, valid, carries the snapshotted costs,
and has `executeAt = startTime + duration` exactly. -/
theorem startBuild_success_postconditions {dto : StartBuildDto} {now : Int}
    {newId : String} {st st' : St} {fs fs' : List Bool} {b : Build}
    {u : UserResources}
    (hu : findUser st dto.userId = some u)
    (h : startBuild dto now newId st fs = (.ok b, st', fs')) :
    findUser st' dto.userId = some
      { u with
        wood := u.wood - dto.woodCost.getD 0
        clay := u.clay - dto.clayCost.getD 0
        iron := u.iron - dto.ironCost.getD 0
        crop := u.crop - dto.cropCost.getD 0 } ∧
    st'.builds = st.builds ++ [b] ∧
    b.status = BuildStatus.running ∧ b.isValid = true ∧
    b.woodCost = dto.woodCost.getD 0 ∧ b.clayCost = dto.clayCost.getD 0 ∧
    b.ironCost = dto.ironCost.getD 0 ∧ b.cropCost = dto.cropCost.getD 0 ∧
    b.startTime = now ∧ b.endTime = none ∧
    b.executeAt = b.startTime + dto.duration := by
  obtain ⟨u₀, hu₀, hni, hb, hst⟩ := startBuild_ok_inv h
  have hueq : u₀ = u := by
    rw [hu] at hu₀
    exact (Option.some.inj hu₀).symm
  subst hueq
  subst hb
  have huid : u₀.userId = dto.userId := findUser_id hu
  refine ⟨?_, ?_, rfl, rfl, rfl, rfl, rfl, rfl, rfl, rfl, rfl⟩
  · have hpre : findUser st (deductCosts u₀ dto).userId = some u₀ := by
      show findUser st u₀.userId = some u₀
      rw [huid]
      exact hu
    have h2 := @findUser_save_self st (deductCosts u₀ dto) u₀
      (st.builds ++ [newBuildRow dto now newId]) hpre
    have hkey : (deductCosts u₀ dto).userId = dto.userId := huid
    rw [hkey] at h2
    rw [hst]
    exact h2
  · rw [hst]

/-- C2 witness: the theorem applied to a concrete successful call. -/
theorem startBuild_success_postconditions_witness :
    findUser (startBuild wDto 1000 "b1" wSt []).2.1 wDto.userId = some
      { wUser with
        wood := wUser.wood - wDto.woodCost.getD 0
        clay := wUser.clay - wDto.clayCost.getD 0
        iron := wUser.iron - wDto.ironCost.getD 0
        crop := wUser.crop - wDto.cropCost.getD 0 } ∧
    (startBuild wDto 1000 "b1" wSt []).2.1.builds =
      wSt.builds ++ [newBuildRow wDto 1000 "b1"] ∧
    (newBuildRow wDto 1000 "b1").status = BuildStatus.running ∧
    (newBuildRow wDto 1000 "b1").isValid = true ∧
    (newBuildRow wDto 1000 "b1").woodCost = wDto.woodCost.getD 0 ∧
    (newBuildRow wDto 1000 "b1").clayCost = wDto.clayCost.getD 0 ∧
    (newBuildRow wDto 1000 "b1").ironCost = wDto.ironCost.getD 0 ∧
    (newBuildRow wDto 1000 "b1").cropCost = wDto.cropCost.getD 0 ∧
    (newBuildRow wDto 1000 "b1").startTime = 1000 ∧
    (newBuildRow wDto 1000 "b1").endTime = none ∧
    (newBuildRow wDto 1000 "b1").executeAt =
      (newBuildRow wDto 1000 "b1").startTime + wDto.duration :=
  @startBuild_success_postconditions wDto 1000 "b1" wSt
    (startBuild wDto 1000 "b1" wSt []).2.1 []
    (startBuild wDto 1000 "b1" wSt []).2.2
    (newBuildRow wDto 1000 "b1") wUser rfl rfl

/-- C4: completion is guarded by status: on a record that is not Running,
`completeBuild` signals NotRunning and mutates nothing; consequently,
after a first successful completion with a terminal status, a second
`completeBuild` on the same id signals NotRunning and leaves the store —
and so every field of the stored record, duration and endTime included —
exactly as the first call left them. -/
theorem completeBuild_idempotent :
    (∀ (st : St) (fs : List Bool) (id : String) (s : BuildStatus) (now : Int)
       (b : Build),
       findBuild st id = some b → b.status ≠ BuildStatus.running →
       completeBuild id s now st fs = (.error (.notRunning id), st, fs)) ∧
    (∀ (st st₁ : St) (fs fs₁ : List Bool) (id : String) (s₁ : BuildStatus)
       (now₁ : Int) (b₁ : Build),
       s₁ ≠ BuildStatus.running →
       completeBuild id s₁ now₁ st fs = (.ok b₁, st₁, fs₁) →
       ∀ (s₂ : BuildStatus) (now₂ : Int) (fs₂ : List Bool),
         completeBuild id s₂ now₂ st₁ fs₂ = (.error (.notRunning id), st₁, fs₂)) := by
  constructor
  · intro st fs id s now b hfind hs
    exact completeBuild_not_running hfind hs
  · intro st st₁ fs fs₁ id s₁ now₁ b₁ hs₁ h s₂ now₂ fs₂
    obtain ⟨b, hfind, hrun, hb₁, hst₁, _⟩ := completeBuild_ok_inv h
    have hbid : b.id = id := findBuild_id hfind
    have hfind₁ : findBuild st₁ id = some b₁ := by
      have hpre : findBuild st (completedRow b s₁ now₁).id = some b := by
        rw [completedRow_id, hbid]
        exact hfind
      have h2 := findBuild_save_self hpre
      rw [completedRow_id, hbid] at h2
      rw [hst₁, hb₁]
      exact h2
    have hterm : b₁.status ≠ BuildStatus.running := by
      rw [hb₁]
      exact hs₁
    exact completeBuild_not_running hfind₁ hterm

/-- C4 witness: the guard on an already-Completed record, and a full
complete-then-complete-again run on the concrete store `cexSt`. -/
theorem completeBuild_idempotent_witness :
    completeBuild "b1" .completed 300 cexStDone [] =
      (.error (.notRunning "b1"), cexStDone, []) ∧
    completeBuild "b1" .failed 200 cexStDone [] =
      (.error (.notRunning "b1"), cexStDone, []) :=
  ⟨completeBuild_idempotent.1 cexStDone [] "b1" .completed 300 cexB1completed
      rfl (by decide),
   completeBuild_idempotent.2 cexSt cexStDone [] [] "b1" .completed 100
      cexB1completed (by decide) rfl .failed 200 []⟩

/-- C5 counterexample: completing the Running record `b1` with the Failed
status succeeds but leaves `errorMessage` empty — `completeBuild` never
assigns `errorMessage`, so "Failed, with errorMessage = failureReason"
does not hold of the code. -/
theorem completeBuild_failed_message_counterexample :
    completeBuild "b1" .failed 100 cexSt [] =
      (.ok cexB1failed, { users := [], builds := [cexB1failed, cexB2] }, []) ∧
    cexB1failed.status = BuildStatus.failed ∧
    cexB1failed.errorMessage = none :=
  ⟨rfl, rfl, rfl⟩

/-- C5 amended: completing a loaded Running record at time `now` with
status `s` sets `duration = now - startTime` (actual elapsed time),
`endTime = now`, `status = s` (Completed by default at the call sites,
Failed on the scheduler fallback), recomputes `isValid` through the fixed
`validateDuration` check (`duration > 0`), persists the updated row, and
leaves `errorMessage` unchanged. -/
theorem completeBuild_running_postconditions {id : String} {s : BuildStatus}
    {now : Int} {st st' : St} {fs fs' : List Bool} {b' b : Build}
    (hfind : findBuild st id = some b)
    (h : completeBuild id s now st fs = (.ok b', st', fs')) :
    b.status = BuildStatus.running ∧
    b'.duration = some (now - b.startTime) ∧
    b'.endTime = some now ∧
    b'.status = s ∧
    b'.isValid = validateDuration (now - b.startTime) ∧
    b'.errorMessage = b.errorMessage ∧
    findBuild st' id = some b' := by
  obtain ⟨b₀, hb₀, hrun, hb', hst', _⟩ := completeBuild_ok_inv h
  have hbeq : b₀ = b := by
    rw [hfind] at hb₀
    exact (Option.some.inj hb₀).symm
  subst hbeq
  subst hb'
  have hbid : b₀.id = id := findBuild_id hfind
  refine ⟨hrun, rfl, rfl, rfl, rfl, rfl, ?_⟩
  have hpre : findBuild st (completedRow b₀ s now).id = some b₀ := by
    rw [completedRow_id, hbid]
    exact hfind
  have h2 := findBuild_save_self hpre
  rw [completedRow_id, hbid] at h2
  rw [hst']
  exact h2

/-- C5 witness: the amended theorem applied to the concrete completion of
`b1` at time 100. -/
theorem completeBuild_running_postconditions_witness :
    cexB1.status = BuildStatus.running ∧
    cexB1completed.duration = some (100 - cexB1.startTime) ∧
    cexB1completed.endTime = some 100 ∧
    cexB1completed.status = BuildStatus.completed ∧
    cexB1completed.isValid = validateDuration (100 - cexB1.startTime) ∧
    cexB1completed.errorMessage = cexB1.errorMessage ∧
    findBuild cexStDone "b1" = some cexB1completed :=
  @completeBuild_running_postconditions "b1" BuildStatus.completed 100 cexSt
    cexStDone [] [] cexB1completed cexB1 rfl rfl

/-- C7 counterexample: two Running overdue rows `b1`, `b2` at tick time
100.  With the store failing the first save only, `b1` is marked Failed
by the fallback but with `errorMessage` still empty (second conjunct) —
not "with the captured error message".  With the store failing twice, the
fallback `completeBuild(id, FAILED)` throws out of the loop to the
tick-level catch, and the whole batch — `b2` included, although it was
due and Running — is left unprocessed (third conjunct). -/
theorem scheduler_batch_counterexample :
    (processCompletedBuilds 100 cexSt [true, false]).1 =
      { users := [], builds := [cexB1failed, cexB2completed] } ∧
    cexB1failed.errorMessage = none ∧
    (processCompletedBuilds 100 cexSt [true, true]).1 = cexSt ∧
    cexB2.status = BuildStatus.running ∧ cexB2.executeAt ≤ 100 :=
  ⟨rfl, rfl, rfl, rfl, by decide⟩

/-- C7 amended: in a scheduler tick, a failure completing one due record
is caught and the record is retried as Failed via
`completeBuild(id, FAILED)` — which leaves `errorMessage` unchanged; when
that fallback save succeeds (here: a single store fault), every remaining
record of the batch is still processed to Completed; only if the fallback
itself also threw would the rest of the batch be skipped until a later
tick. -/
theorem scheduler_single_fault_isolation {st : St} {now : Int} {b : Build}
    {rest : List Build}
    (hdue : getBuildsToComplete now st = b :: rest)
    (hnd : (st.builds.map (fun x => x.id)).Nodup) :
    findBuild (processCompletedBuilds now st [true]).1 b.id =
      some (completedRow b BuildStatus.failed now) ∧
    (completedRow b BuildStatus.failed now).errorMessage = b.errorMessage ∧
    ∀ x ∈ rest, findBuild (processCompletedBuilds now st [true]).1 x.id =
      some (completedRow x BuildStatus.completed now) := by
  have hbdue : b ∈ getBuildsToComplete now st := by
    rw [hdue]
    exact List.mem_cons_self _ _
  obtain ⟨hbmem, hbrun, hble⟩ := mem_getBuildsToComplete.mp hbdue
  have hfb : findBuild st b.id = some b := findBuild_of_mem_nodup hnd hbmem
  have hfault : completeBuild b.id BuildStatus.completed now st [true] =
      (.error .storeError, st, []) :=
    @completeBuild_store_fault b.id BuildStatus.completed now st [true] b hfb hbrun rfl
  have hfallback : completeBuild b.id BuildStatus.failed now st [] =
      (.ok (completedRow b BuildStatus.failed now),
       { st with builds := saveBuildRow (completedRow b BuildStatus.failed now) st.builds },
       []) :=
    @completeBuild_running_ok b.id BuildStatus.failed now st [] b hfb hbrun rfl
  have hdnd := @nodup_due_ids now st hnd
  rw [hdue, List.map_cons, List.nodup_cons] at hdnd
  have hstep : (processCompletedBuilds now st [true]).1 =
      (processBatch rest now
        { st with builds := saveBuildRow (completedRow b BuildStatus.failed now) st.builds }
        []).1 := by
    unfold processCompletedBuilds
    rw [hdue, processBatch]
    simp only [hfault, hfallback]
  have hother : ∀ j, j ≠ b.id →
      findBuild
        { st with builds := saveBuildRow (completedRow b BuildStatus.failed now) st.builds }
        j = findBuild st j := by
    intro j hj
    exact findBuild_save_other (by rw [completedRow_id]; exact hj)
  have hmem' : ∀ x ∈ rest,
      ∃ r, findBuild
          { st with builds := saveBuildRow (completedRow b BuildStatus.failed now) st.builds }
          x.id = some r ∧ r.status = BuildStatus.running := by
    intro x hx
    have hxdue : x ∈ getBuildsToComplete now st := by
      rw [hdue]
      exact List.mem_cons_of_mem _ hx
    obtain ⟨hxmem, hxrun, _⟩ := mem_getBuildsToComplete.mp hxdue
    have hxne : x.id ≠ b.id := by
      intro hh
      exact hdnd.1 (hh ▸ List.mem_map_of_mem _ hx)
    exact ⟨x, by rw [hother x.id hxne]; exact findBuild_of_mem_nodup hnd hxmem, hxrun⟩
  obtain ⟨ih1, ih2, _⟩ := processBatch_no_fault hmem' hdnd.2
  refine ⟨?_, rfl, ?_⟩
  · rw [hstep, ih2 b.id hdnd.1]
    have hpre : findBuild st (completedRow b BuildStatus.failed now).id = some b := by
      rw [completedRow_id]
      exact hfb
    have h2 := findBuild_save_self hpre
    rwa [completedRow_id] at h2
  · intro x hx
    rw [hstep]
    have hxdue : x ∈ getBuildsToComplete now st := by
      rw [hdue]
      exact List.mem_cons_of_mem _ hx
    obtain ⟨hxmem, hxrun, _⟩ := mem_getBuildsToComplete.mp hxdue
    have hxne : x.id ≠ b.id := by
      intro hh
      exact hdnd.1 (hh ▸ List.mem_map_of_mem _ hx)
    exact ih1 x hx x (by rw [hother x.id hxne]; exact findBuild_of_mem_nodup hnd hxmem)

/-- C7 witness: the amended theorem applied to the two-record store. -/
theorem scheduler_single_fault_isolation_witness :
    findBuild (processCompletedBuilds 100 cexSt [true]).1 cexB1.id =
      some (completedRow cexB1 BuildStatus.failed 100) ∧
    (completedRow cexB1 BuildStatus.failed 100).errorMessage = cexB1.errorMessage ∧
    ∀ x ∈ [cexB2], findBuild (processCompletedBuilds 100 cexSt [true]).1 x.id =
      some (completedRow x BuildStatus.completed 100) :=
  @scheduler_single_fault_isolation cexSt 100 cexB1 [cexB2] rfl (by decide)

/-- C8: evaluation of the recovery sweep at the failing input.  Both
rows are Running and overdue (fourth conjunct shows `b2` is present and
Running); the store fails the completion save for `b1` and then the
catch block's own `save` too, so `recoverCompletedBuilds` aborts with the
store error: no count is returned and `b2` is left Running — the sweep is
not isolated per record, contradicting the claim (and the code's own
"Log error but continue recovery" comment). -/
theorem recovery_abort_on_double_fault :
    recoverCompletedBuilds 100 cexSt [true, true] =
      (.error .storeError, cexSt, []) ∧
    findBuild cexSt "b2" = some cexB2 ∧
    cexB2.status = BuildStatus.running ∧ cexB2.executeAt ≤ 100 :=
  ⟨rfl, rfl, rfl, by decide⟩

end BT
